import Mathlib

/-!
# Rectangle Recoverer — verification of the geometry routine in `src/data/blog/lambdas.mdx`

Shallow embedding of the C++ solution embedded in the "CALICO 2b1" blog post
(lines 340–507 of `src/data/blog/lambdas.mdx`).  The C++ code works over
`long double`; we embed it over `ℚ` (the inputs are exact decimal coordinates,
so every decimal literal such as `1e-7` or `1e9` is an exact rational).
Division by zero — which in the C++ produces `inf`/`NaN` values that are later
caught by the `std::isnan` check — is modelled by `Option`: an arithmetic
step that divides by zero yields `none`, and `none` propagates, so a candidate
whose slope–intercept arithmetic is undefined is never accepted, exactly as a
NaN area is never accepted by the source.
-/

/-- A 2D point `pt = std::array<T, 2>`: coordinates `(x, y)`. -/
abbrev pt : Type := ℚ × ℚ

/-- A vector, difference of two points (`vec` in the source). -/
abbrev vec : Type := ℚ × ℚ

/-- A line in slope–intercept form `(m, b)` (`line` in the source). -/
abbrev line : Type := ℚ × ℚ

/-- `cross`: the 2D cross product `a[0]*b[1] - a[1]*b[0]`. -/
def cross (a b : vec) : ℚ := a.1 * b.2 - a.2 * b.1

/-- `operator-` on points: componentwise difference. -/
def psub (a b : pt) : vec := (a.1 - b.1, a.2 - b.2)

/-- `eval`: evaluate the line `a` at abscissa `x`, i.e. `a[0]*x + a[1]`. -/
def eval (a : line) (x : ℚ) : ℚ := a.1 * x + a.2

/-- Division with the undefined case made explicit: the C++ `long double`
division by zero produces `inf`/`NaN`; we return `none` there. -/
def qdiv (a b : ℚ) : Option ℚ := if b = 0 then none else some (a / b)

/-- `intersect`: intersection of two lines, `x = (b2 - b1) / (m1 - m2)`,
returning `(x, eval a x)`; undefined (NaN in the source) for parallel slopes. -/
def intersect (a b : line) : Option pt :=
  (qdiv (b.2 - a.2) (a.1 - b.1)).map (fun x => (x, eval a x))

/-- `make_line(loc, slope)`: the line with the given slope through `loc`. -/
def make_line (loc : pt) (slope : ℚ) : line := (slope, loc.2 - slope * loc.1)

/-- `make_line(a, b)`: the line through two points; its slope
`(b[1]-a[1]) / (b[0]-a[0])` is undefined (infinite) for a vertical segment. -/
def make_line2 (a b : pt) : Option line :=
  (qdiv (b.2 - a.2) (b.1 - a.1)).map (fun s => make_line a s)

/-- `std::abs` on our scalar type. -/
def rabs (x : ℚ) : ℚ := if x < 0 then -x else x

/-- `std::min` on our scalar type. -/
def qmin (a b : ℚ) : ℚ := if a ≤ b then a else b

/-- `std::max` on our scalar type. -/
def qmax (a b : ℚ) : ℚ := if a ≤ b then b else a

/-- `polygon_area`: the shoelace loop of the source,
`res += x1*y2 - y1*x2` over `i` with the wrap-around index `(i+1) % n`,
then `abs(res) / 2`. -/
def polygon_area (locs : List pt) : ℚ :=
  rabs ((List.range locs.length).foldl
    (fun res i =>
      res + ((locs.getD i (0, 0)).1 * (locs.getD ((i + 1) % locs.length) (0, 0)).2
             - (locs.getD i (0, 0)).2 * (locs.getD ((i + 1) % locs.length) (0, 0)).1)) 0) / 2

/-- Insertion of a point into a sorted list under the lexicographic order of
`std::array<T,2>::operator<` (by `x`, then `y`). -/
def insertPt (p : pt) : List pt → List pt
  | [] => [p]
  | q :: r =>
    if p.1 < q.1 ∨ (p.1 = q.1 ∧ p.2 ≤ q.2) then p :: q :: r else q :: insertPt p r

/-- `std::sort` of the point list under the lexicographic order
(insertion sort; any correct sort yields the same list of values). -/
def sortPts : List pt → List pt
  | [] => []
  | p :: r => insertPt p (sortPts r)

/-- The `while` loop of `lower_hull`: with the hull stack held most-recent
first, pop the stack top `b` while the last two hull edges make a non-left
turn with the incoming point `p`
(`cross(hull.back() - hull[hull.size()-2], p - hull.back()) <= 0`). -/
def popBad (p : pt) : List pt → List pt
  | b :: a :: rest =>
    if cross (psub b a) (psub p b) ≤ 0 then popBad p (a :: rest) else b :: a :: rest
  | s => s

/-- The `for` loop of `lower_hull`: push each point after popping. -/
def hullFold (stack : List pt) : List pt → List pt
  | [] => stack
  | p :: rest => hullFold (p :: popBad p stack) rest

/-- `lower_hull`: sort the points, return them unchanged when `n < 2`,
otherwise run the monotone-chain scan (the stack is held reversed, so the
result is reversed back into left-to-right order). -/
def lower_hull (locs : List pt) : List pt :=
  if (sortPts locs).length < 2 then sortPts locs
  else (hullFold [] (sortPts locs)).reverse

/-- `const T eps = 1e-7;` (exact decimal). -/
def eps : ℚ := 1 / 10000000

/-- The sentinel `1e9` seeding the running minima/maxima in `solve`. -/
def big : ℚ := 1000000000

/-- The perpendicular slope `m2 = -1 / m1`; undefined when `l1` is horizontal. -/
def slope_m2 (l1 : line) : Option ℚ := qdiv (-1) l1.1

/-- The projection abscissa of point `p` for candidate line `l1`:
`intersect(l1, make_line(pts[j], m2))[0]`. -/
def proj_x (l1 : line) (m2 : ℚ) (p : pt) : Option ℚ :=
  (intersect l1 (make_line p m2)).map Prod.fst

/-- The list of projection abscissae of all points (the `j` loop computing
`min_x` / `max_x` in `solve`); `none` as soon as one is undefined. -/
def projXs (l1 : line) (m2 : ℚ) : List pt → Option (List ℚ)
  | [] => some []
  | p :: rest =>
    match proj_x l1 m2 p, projXs l1 m2 rest with
    | some x, some xs => some (x :: xs)
    | _, _ => none

/-- The candidate-rectangle construction of `solve` for one hull edge `(a, b)`:
`l1` through the edge, `m2 = -1/m1`, `l2`/`l3` with slope `m2` through the
extreme projections (running extrema seeded with `±1e9`), and `l4 = {m1, max_b}`
with `max_b` the running maximum (seeded with `-1e9`) of the intercepts of the
slope-`m1` lines through each point. -/
def candLines (pts : List pt) (a b : pt) : Option (line × line × line × line) :=
  (make_line2 a b).bind fun l1 =>
  (slope_m2 l1).bind fun m2 =>
  (projXs l1 m2 pts).map fun xs =>
    let min_x := xs.foldl qmin big
    let max_x := xs.foldl qmax (-big)
    let l2 := make_line (min_x, eval l1 min_x) m2
    let l3 := make_line (max_x, eval l1 max_x) m2
    let max_b := (pts.map (fun p => (make_line p l1.1).2)).foldl qmax (-big)
    (l1, l2, l3, (l1.1, max_b))

/-- One clause of the verification loop: `abs(eval(l, x) - y) < eps`. -/
def onLine (l : line) (p : pt) : Bool := decide (rabs (eval l p.1 - p.2) < eps)

/-- The verification loop of `solve`: every point must lie within `eps`
of at least one of `{l1, l2, l3, l4}`. -/
def goodCheck (pts : List pt) (l1 l2 l3 l4 : line) : Bool :=
  pts.all fun p => onLine l1 p || onLine l2 p || onLine l3 p || onLine l4 p

/-- The four corner intersections of `segs = {l1, l3, l4, l2}` taken in
cyclic adjacent order `(segs[j], segs[(j+1) % 4])`. -/
def corners (l1 l2 l3 l4 : line) : Option (List pt) :=
  match intersect l1 l3, intersect l3 l4, intersect l4 l2, intersect l2 l1 with
  | some p0, some p1, some p2, some p3 => some [p0, p1, p2, p3]
  | _, _, _, _ => none

/-- The body of the candidate loop of `solve` for one hull edge: build the
four sides, verify every point, and on success return the shoelace area of
the four corners; `none` both on a failed verification and on an undefined
(NaN) computation. -/
def tryEdge (pts : List pt) (a b : pt) : Option ℚ :=
  (candLines pts a b).bind fun L =>
    if goodCheck pts L.1 L.2.1 L.2.2.1 L.2.2.2 then
      (corners L.1 L.2.1 L.2.2.1 L.2.2.2).map polygon_area
    else none

/-- The adjacent hull pairs `(hull[i], hull[i+1])` for `i + 1 < hull.size()`. -/
def adjPairs : List pt → List (pt × pt)
  | a :: b :: rest => (a, b) :: adjPairs (b :: rest)
  | _ => []

/-- One pass of `solve`: try the hull edges in hull order and return the
area of the first accepted candidate (the early `return`). -/
def runPass (pts : List pt) : Option ℚ :=
  (adjPairs (lower_hull pts)).findSome? fun e => tryEdge pts e.1 e.2

/-- The in-place reflection `x *= -1, y *= -1` applied to every point. -/
def neg_pts (pts : List pt) : List pt := pts.map fun p => (-p.1, -p.2)

/-- Rotation of a point about the origin by an angle with cosine `c` and
sine `s` (used only to state the spec's equivalence between reflection and
rotation by 180°). -/
def rotBy (c s : ℚ) (p : pt) : pt := (c * p.1 - s * p.2, s * p.1 + c * p.2)

/-- Rotation by 180° (`cos = -1`, `sin = 0`), as the spec words the
equivalence: "running the same lower-hull logic on the point set rotated
180°". -/
def rot180 : pt → pt := rotBy (-1) 0

/-- The axis-aligned fallback of `solve`: running bounding-box extrema
seeded with `±1e9`, reporting `(max_y - min_y) * (max_x - min_x)`. -/
def bboxArea (pts : List pt) : ℚ :=
  let min_x := (pts.map Prod.fst).foldl qmin big
  let max_x := (pts.map Prod.fst).foldl qmax (-big)
  let min_y := (pts.map Prod.snd).foldl qmin big
  let max_y := (pts.map Prod.snd).foldl qmax (-big)
  (max_y - min_y) * (max_x - min_x)

/-- `solve`: two hull passes (the point set reflected in place after a failed
pass), then the axis-aligned fallback on the (twice-reflected) points. -/
def solve (pts : List pt) : ℚ :=
  match runPass pts with
  | some r => r
  | none =>
    match runPass (neg_pts pts) with
    | some r => r
    | none => bboxArea (neg_pts (neg_pts pts))

/-- Strictly convex consecutive turns, phrased on the hull stack held
most-recent-first: every three adjacent stack entries `c :: b :: a :: _`
(where `a` was pushed first) make a strict left turn. -/
def RevTurns : List pt → Prop
  | c :: b :: a :: rest => 0 < cross (psub b a) (psub c b) ∧ RevTurns (b :: a :: rest)
  | _ => True

/-- Strictly convex consecutive turns of a left-to-right point sequence:
any three consecutive points make a strict left turn (in particular no three
consecutive points are collinear). -/
def StrictTurns (l : List pt) : Prop :=
  ∀ xs ys (a b c : pt), l = xs ++ a :: b :: c :: ys → 0 < cross (psub b a) (psub c b)

/-- The shoelace sum exactly as the spec words it: the sum over consecutive
corners (cyclically, each corner paired with the next) of
`x_i * y_{i+1} - y_i * x_{i+1}`. -/
def specShoelace (locs : List pt) : ℚ :=
  (List.zipWith (fun p q => p.1 * q.2 - p.2 * q.1) locs (locs.rotate 1)).sum

/-! ## Concrete inputs used by witnesses and counterexamples -/

/-- A 45°-tilted rectangle with corners `(0,0)`, `(1,1)`, `(0,2)`, `(-1,1)`
(area 2), sampled at its four corners. -/
def ex1 : List pt := [(-1, 1), (0, 0), (0, 2), (1, 1)]

/-- Boundary samples (corners and edge midpoints) of the axis-aligned
rectangle with corners `(0,0)`, `(4,0)`, `(4,3)`, `(0,3)` (area 12). -/
def axEx : List pt :=
  [(0, 0), (4, 0), (4, 3), (0, 3), (2, 0), (4, 3/2), (2, 3), (0, 3/2)]

/-- The tilted rectangle of `ex1` with one extra sample perturbed off its
side by `1e-8` (below the tolerance `eps = 1e-7`). -/
def ex9 : List pt := [(-1, 1), (0, 0), (0, 2), (1, 1), (1/2, 1/2 + 1/100000000)]

/-- `ex9` with every coordinate scaled by `1e6`: the perturbation becomes
`1e-2`, far above the fixed tolerance. -/
def ex9big : List pt := ex9.map fun p => (1000000 * p.1, 1000000 * p.2)

/-- Two points whose projections onto their own edge line lie beyond the
`1e9` sentinel seeding the running extrema of `solve`. -/
def ex3 : List pt := [(2000000000, 0), (2000000001, 1)]

/-! ## Scalar helper lemmas -/

theorem rabs_nonneg (x : ℚ) : 0 ≤ rabs x := by
  unfold rabs; split <;> linarith

theorem qmin_comm_neg (a b : ℚ) : qmax (-a) (-b) = -(qmin a b) := by
  unfold qmin qmax; rcases lt_trichotomy a b with h | h | h <;>
    (split <;> split <;> first | rfl | linarith)

theorem qmax_comm_neg (a b : ℚ) : qmin (-a) (-b) = -(qmax a b) := by
  unfold qmin qmax; rcases lt_trichotomy a b with h | h | h <;>
    (split <;> split <;> first | rfl | linarith)

theorem qmin_le_left (a b : ℚ) : qmin a b ≤ a := by
  unfold qmin; split <;> linarith

theorem qmin_le_right (a b : ℚ) : qmin a b ≤ b := by
  unfold qmin; split <;> linarith

theorem le_qmin (a b c : ℚ) (h1 : c ≤ a) (h2 : c ≤ b) : c ≤ qmin a b := by
  unfold qmin; split <;> linarith

theorem qmax_ge_left (a b : ℚ) : a ≤ qmax a b := by
  unfold qmax; split <;> linarith

theorem qmax_ge_right (a b : ℚ) : b ≤ qmax a b := by
  unfold qmax; split <;> linarith

theorem qmax_le (a b c : ℚ) (h1 : a ≤ c) (h2 : b ≤ c) : qmax a b ≤ c := by
  unfold qmax; split <;> linarith

theorem qmin_or (a b : ℚ) : qmin a b = a ∨ qmin a b = b := by
  unfold qmin; split <;> simp

theorem qmax_or (a b : ℚ) : qmax a b = a ∨ qmax a b = b := by
  unfold qmax; split <;> simp

/-! ## Fold-extrema lemmas -/

theorem foldl_qmin_le_init : ∀ (xs : List ℚ) (s : ℚ), xs.foldl qmin s ≤ s := by
  intro xs
  induction xs with
  | nil => intro s; simp
  | cons x xs ih =>
    intro s
    calc (x :: xs).foldl qmin s = xs.foldl qmin (qmin s x) := rfl
    _ ≤ qmin s x := ih _
    _ ≤ s := qmin_le_left _ _

theorem foldl_qmin_le_mem : ∀ (xs : List ℚ) (s y : ℚ), y ∈ xs → xs.foldl qmin s ≤ y := by
  intro xs
  induction xs with
  | nil => intro s y h; simp at h
  | cons x xs ih =>
    intro s y h
    rcases List.mem_cons.mp h with h | h
    · subst h
      calc (y :: xs).foldl qmin s = xs.foldl qmin (qmin s y) := rfl
      _ ≤ qmin s y := foldl_qmin_le_init _ _
      _ ≤ y := qmin_le_right _ _
    · exact ih _ y h

theorem foldl_qmin_mem_or : ∀ (xs : List ℚ) (s : ℚ),
    xs.foldl qmin s = s ∨ xs.foldl qmin s ∈ xs := by
  intro xs
  induction xs with
  | nil => intro s; simp
  | cons x xs ih =>
    intro s
    have h := ih (qmin s x)
    rcases h with h | h
    · rcases qmin_or s x with h2 | h2
      · left; show xs.foldl qmin (qmin s x) = s; rw [h, h2]
      · right; show xs.foldl qmin (qmin s x) ∈ x :: xs
        rw [h, h2]; exact List.mem_cons_self _ _
    · right; exact List.mem_cons_of_mem _ h

theorem foldl_qmin_eq (xs : List ℚ) (s x : ℚ) (hmem : x ∈ xs)
    (hle : ∀ y ∈ xs, x ≤ y) (hs : x ≤ s) : xs.foldl qmin s = x := by
  refine le_antisymm (foldl_qmin_le_mem xs s x hmem) ?_
  rcases foldl_qmin_mem_or xs s with h | h
  · rw [h]; exact hs
  · exact hle _ h

theorem foldl_qmax_le_init : ∀ (xs : List ℚ) (s : ℚ), s ≤ xs.foldl qmax s := by
  intro xs
  induction xs with
  | nil => intro s; simp
  | cons x xs ih =>
    intro s
    calc s ≤ qmax s x := qmax_ge_left _ _
    _ ≤ xs.foldl qmax (qmax s x) := ih _
    _ = (x :: xs).foldl qmax s := rfl

theorem foldl_qmax_le_mem : ∀ (xs : List ℚ) (s y : ℚ), y ∈ xs → y ≤ xs.foldl qmax s := by
  intro xs
  induction xs with
  | nil => intro s y h; simp at h
  | cons x xs ih =>
    intro s y h
    rcases List.mem_cons.mp h with h | h
    · subst h
      calc y ≤ qmax s y := qmax_ge_right _ _
      _ ≤ xs.foldl qmax (qmax s y) := foldl_qmax_le_init _ _
      _ = (y :: xs).foldl qmax s := rfl
    · exact ih _ y h

theorem foldl_qmax_mem_or : ∀ (xs : List ℚ) (s : ℚ),
    xs.foldl qmax s = s ∨ xs.foldl qmax s ∈ xs := by
  intro xs
  induction xs with
  | nil => intro s; simp
  | cons x xs ih =>
    intro s
    have h := ih (qmax s x)
    rcases h with h | h
    · rcases qmax_or s x with h2 | h2
      · left; show xs.foldl qmax (qmax s x) = s; rw [h, h2]
      · right; show xs.foldl qmax (qmax s x) ∈ x :: xs
        rw [h, h2]; exact List.mem_cons_self _ _
    · right; exact List.mem_cons_of_mem _ h

theorem foldl_qmax_eq (xs : List ℚ) (s x : ℚ) (hmem : x ∈ xs)
    (hle : ∀ y ∈ xs, y ≤ x) (hs : s ≤ x) : xs.foldl qmax s = x := by
  refine le_antisymm ?_ (foldl_qmax_le_mem xs s x hmem)
  rcases foldl_qmax_mem_or xs s with h | h
  · rw [h]; exact hs
  · exact hle _ h

theorem foldl_qmax_map_neg : ∀ (xs : List ℚ) (s : ℚ),
    (xs.map fun y => -y).foldl qmax s = -(xs.foldl qmin (-s)) := by
  intro xs
  induction xs with
  | nil => intro s; simp
  | cons x xs ih =>
    intro s
    show (xs.map fun y => -y).foldl qmax (qmax s (-x)) = -(xs.foldl qmin (qmin (-s) x))
    have h : qmax s (-x) = -(qmin (-s) x) := by
      have := qmin_comm_neg (-s) x
      rwa [neg_neg] at this
    rw [h, ih, neg_neg]

theorem foldl_qmin_map_neg : ∀ (xs : List ℚ) (s : ℚ),
    (xs.map fun y => -y).foldl qmin s = -(xs.foldl qmax (-s)) := by
  intro xs
  induction xs with
  | nil => intro s; simp
  | cons x xs ih =>
    intro s
    show (xs.map fun y => -y).foldl qmin (qmin s (-x)) = -(xs.foldl qmax (qmax (-s) x))
    have h : qmin s (-x) = -(qmax (-s) x) := by
      have := qmax_comm_neg (-s) x
      rwa [neg_neg] at this
    rw [h, ih, neg_neg]

/-! ## Option extraction and slope/line lemmas -/

theorem qdiv_eq_some {a b x : ℚ} (h : qdiv a b = some x) : b ≠ 0 ∧ x = a / b := by
  unfold qdiv at h
  split at h
  · exact absurd h (by simp)
  · exact ⟨by assumption, (Option.some.inj h).symm⟩

theorem make_line2_eq_some {a b : pt} {l1 : line} (h : make_line2 a b = some l1) :
    b.1 - a.1 ≠ 0 ∧ l1 = make_line a ((b.2 - a.2) / (b.1 - a.1)) := by
  unfold make_line2 at h
  rcases Option.map_eq_some'.mp h with ⟨s, hs, hl⟩
  rcases qdiv_eq_some hs with ⟨hne, hx⟩
  exact ⟨hne, by rw [← hl, hx]⟩

theorem slope_m2_eq_some {l1 : line} {m2 : ℚ} (h : slope_m2 l1 = some m2) :
    l1.1 ≠ 0 ∧ l1.1 * m2 = -1 := by
  rcases qdiv_eq_some h with ⟨hne, hx⟩
  refine ⟨hne, ?_⟩
  rw [hx]; field_simp

theorem candLines_eq_some {pts : List pt} {a b : pt} {L : line × line × line × line}
    (h : candLines pts a b = some L) :
    ∃ l1 m2 xs, make_line2 a b = some l1 ∧ slope_m2 l1 = some m2 ∧
      projXs l1 m2 pts = some xs ∧
      L = (l1, make_line (xs.foldl qmin big, eval l1 (xs.foldl qmin big)) m2,
           make_line (xs.foldl qmax (-big), eval l1 (xs.foldl qmax (-big))) m2,
           (l1.1, ((pts.map fun p => (make_line p l1.1).2).foldl qmax (-big)))) := by
  unfold candLines at h
  rcases Option.bind_eq_some.mp h with ⟨l1, h1, h'⟩
  rcases Option.bind_eq_some.mp h' with ⟨m2, h2, h''⟩
  rcases Option.map_eq_some'.mp h'' with ⟨xs, h3, hL⟩
  exact ⟨l1, m2, xs, h1, h2, h3, hL.symm⟩

theorem projXs_mem {l1 : line} {m2 : ℚ} :
    ∀ {pts : List pt} {xs : List ℚ} {p : pt} {xp : ℚ},
      projXs l1 m2 pts = some xs → p ∈ pts → proj_x l1 m2 p = some xp → xp ∈ xs := by
  intro pts
  induction pts with
  | nil => intro xs p xp _ hp _; simp at hp
  | cons q rest ih =>
    intro xs p xp h hp hproj
    simp only [projXs] at h
    rcases h1 : proj_x l1 m2 q with _ | x <;> rw [h1] at h
    · exact absurd h (by simp)
    · rcases h2 : projXs l1 m2 rest with _ | ys <;> rw [h2] at h
      · exact absurd h (by simp)
      · rw [← Option.some.inj h]
        rcases List.mem_cons.mp hp with hq | hrest
        · subst hq
          rw [h1] at hproj
          rw [Option.some.inj hproj]
          exact List.mem_cons_self _ _
        · exact List.mem_cons_of_mem _ (ih h2 hrest hproj)

/-- The projection point returned by `intersect(l1, make_line(p, m2))` lies on
the perpendicular line through `p`: its abscissa satisfies the perpendicular's
equation as well as `l1`'s. -/
theorem proj_on_perp {l1 : line} {m2 : ℚ} {p : pt} {x : ℚ}
    (h : proj_x l1 m2 p = some x) : eval (make_line p m2) x = eval l1 x := by
  unfold proj_x intersect at h
  rcases Option.map_eq_some'.mp h with ⟨q, hq, hx⟩
  rcases Option.map_eq_some'.mp hq with ⟨x', hx', hq'⟩
  rcases qdiv_eq_some hx' with ⟨hne, hxval⟩
  have hx'x : x' = x := by rw [← hq'] at hx; simpa using hx
  rw [hx'x] at hxval
  simp only [eval, make_line] at hne hxval ⊢
  have : (p.2 - m2 * p.1) - l1.2 = (l1.1 - m2) * x := by
    rw [hxval]; field_simp
  linarith [this]

/-- A line is recovered by `make_line` from its slope and any point on it. -/
theorem make_line_of_on {l : line} {x y : ℚ} (h : eval l x = y) :
    make_line (x, y) l.1 = l := by
  unfold eval at h
  unfold make_line
  have : y - l.1 * x = l.2 := by linarith
  rw [this]

/-- Two lines whose slopes multiply to `-1` always intersect. -/
theorem intersect_isSome_of_perp {a b : line} (h : a.1 * b.1 = -1) :
    ∃ p, intersect a b = some p := by
  unfold intersect qdiv
  have hne : a.1 - b.1 ≠ 0 := by
    intro heq
    have hb : a.1 = b.1 := by linarith
    rw [hb] at h
    nlinarith [sq_nonneg b.1]
  rw [if_neg hne]
  exact ⟨_, rfl⟩

/-! ## Lower-hull convexity (C2 infrastructure) -/

theorem revTurns_tail {x : pt} {t : List pt} (h : RevTurns (x :: t)) : RevTurns t := by
  match t with
  | [] => trivial
  | [b] => trivial
  | b :: a :: rest => exact h.2

theorem popBad_revTurns : ∀ (s : List pt) (p : pt), RevTurns s → RevTurns (p :: popBad p s) := by
  intro s
  induction s with
  | nil => intro p _; trivial
  | cons b t ih =>
    intro p hs
    match t with
    | [] => trivial
    | a :: rest =>
      show RevTurns (p :: popBad p (b :: a :: rest))
      unfold popBad
      split
      · exact ih p (revTurns_tail hs)
      · refine ⟨?_, hs⟩
        linarith [lt_of_not_le (by assumption : ¬cross (psub b a) (psub p b) ≤ 0)]

theorem hullFold_revTurns : ∀ (l s : List pt), RevTurns s → RevTurns (hullFold s l) := by
  intro l
  induction l with
  | nil => intro s h; exact h
  | cons p rest ih =>
    intro s h
    exact ih _ (popBad_revTurns s p h)

theorem revTurns_split : ∀ (us : List pt) (s vs : List pt) (a b c : pt),
    RevTurns s → s = us ++ c :: b :: a :: vs → 0 < cross (psub b a) (psub c b) := by
  intro us
  induction us with
  | nil =>
    intro s vs a b c hrev heq
    subst heq
    exact hrev.1
  | cons u us ih =>
    intro s vs a b c hrev heq
    subst heq
    exact ih _ vs a b c (revTurns_tail hrev) rfl

theorem strictTurns_of_revTurns {r : List pt} (h : RevTurns r) : StrictTurns r.reverse := by
  intro xs ys a b c heq
  have hr : r = ys.reverse ++ c :: b :: a :: xs.reverse := by
    have := congrArg List.reverse heq
    rw [List.reverse_reverse] at this
    rw [this]
    simp [List.reverse_append]
  exact revTurns_split ys.reverse r xs.reverse a b c h hr

theorem strictTurns_short {l : List pt} (h : l.length < 3) : StrictTurns l := by
  intro xs ys a b c heq
  rw [heq] at h
  simp [List.length_append] at h
  omega

/-! ## Shoelace lemmas (C4, C5 infrastructure) -/

theorem foldl_add_eq (f : ℕ → ℚ) :
    ∀ (l : List ℕ) (s : ℚ), l.foldl (fun r i => r + f i) s = s + (l.map f).sum := by
  intro l
  induction l with
  | nil => intro s; simp
  | cons x xs ih =>
    intro s
    show xs.foldl (fun r i => r + f i) (s + f x) = s + ((x :: xs).map f).sum
    rw [ih]
    simp [List.sum_cons]
    ring

theorem getD_lt {locs : List pt} {i : ℕ} (h : i < locs.length) :
    locs.getD i (0, 0) = locs.get ⟨i, h⟩ := by
  rw [List.getD_eq_getElem?_getD, List.getElem?_eq_getElem h]
  rfl

theorem polygon_area_eq_specShoelace (locs : List pt) :
    polygon_area locs = rabs (specShoelace locs) / 2 := by
  unfold polygon_area specShoelace
  rw [foldl_add_eq, zero_add]
  have hmaps : (List.range locs.length).map
      (fun i => (locs.getD i (0, 0)).1 * (locs.getD ((i + 1) % locs.length) (0, 0)).2
              - (locs.getD i (0, 0)).2 * (locs.getD ((i + 1) % locs.length) (0, 0)).1)
      = List.zipWith (fun p q => p.1 * q.2 - p.2 * q.1) locs (locs.rotate 1) := by
    apply List.ext_get
    · simp [List.length_zipWith, List.length_rotate]
    · intro i h1 h2
      have hi : i < locs.length := by simpa using h1
      have hn : 0 < locs.length := Nat.lt_of_le_of_lt (Nat.zero_le i) hi
      have hi1 : (i + 1) % locs.length < locs.length := Nat.mod_lt _ hn
      have hrot : i < (locs.rotate 1).length := by simpa [List.length_rotate] using hi
      rw [List.get_map, List.get_zipWith]
      simp only [List.get_range]
      rw [getD_lt hi, getD_lt hi1]
      have : (locs.rotate 1).get ⟨i, hrot⟩ = locs.get ⟨(i + 1) % locs.length, hi1⟩ := by
        rw [List.get_rotate]
      rw [this]
  rw [hmaps]

theorem polygon_area_nonneg (locs : List pt) : 0 ≤ polygon_area locs := by
  unfold polygon_area
  have := rabs_nonneg ((List.range locs.length).foldl
    (fun res i =>
      res + ((locs.getD i (0, 0)).1 * (locs.getD ((i + 1) % locs.length) (0, 0)).2
             - (locs.getD i (0, 0)).2 * (locs.getD ((i + 1) % locs.length) (0, 0)).1)) 0)
  linarith

theorem getD_neg_pts (locs : List pt) (i : ℕ) :
    (neg_pts locs).getD i (0, 0) =
      (-(locs.getD i (0, 0)).1, -(locs.getD i (0, 0)).2) := by
  rw [List.getD_eq_getElem?_getD, List.getD_eq_getElem?_getD]
  unfold neg_pts
  rw [List.getElem?_map]
  cases locs[i]? with
  | none => simp
  | some p => simp

theorem polygon_area_neg (locs : List pt) :
    polygon_area (neg_pts locs) = polygon_area locs := by
  unfold polygon_area
  have hlen : (neg_pts locs).length = locs.length := by simp [neg_pts]
  rw [hlen]
  have hfun : (fun (res : ℚ) (i : ℕ) =>
      res + (((neg_pts locs).getD i (0, 0)).1 * ((neg_pts locs).getD ((i + 1) % locs.length) (0, 0)).2
             - ((neg_pts locs).getD i (0, 0)).2 * ((neg_pts locs).getD ((i + 1) % locs.length) (0, 0)).1))
      = fun (res : ℚ) (i : ℕ) =>
      res + ((locs.getD i (0, 0)).1 * (locs.getD ((i + 1) % locs.length) (0, 0)).2
             - (locs.getD i (0, 0)).2 * (locs.getD ((i + 1) % locs.length) (0, 0)).1) := by
    funext res i
    rw [getD_neg_pts, getD_neg_pts]
    ring
  rw [hfun]

/-! ## Candidate-loop lemmas (C1 infrastructure) -/

theorem findSome?_first {α β : Type} :
    ∀ (pre : List α) (e : α) (post : List α) (f : α → Option β) (r : β),
      (∀ x ∈ pre, f x = none) → f e = some r →
      (pre ++ e :: post).findSome? f = some r := by
  intro pre
  induction pre with
  | nil =>
    intro e post f r _ he
    simp [List.findSome?_cons, he]
  | cons x xs ih =>
    intro e post f r hpre he
    have hx : f x = none := hpre x (List.mem_cons_self _ _)
    show ((x :: (xs ++ e :: post)).findSome? f) = some r
    rw [List.findSome?_cons, hx]
    exact ih e post f r (fun y hy => hpre y (List.mem_cons_of_mem _ hy)) he

theorem tryEdge_eq_some {pts : List pt} {a b : pt} {r : ℚ}
    (h : tryEdge pts a b = some r) :
    ∃ l1 l2 l3 l4 its, candLines pts a b = some (l1, l2, l3, l4) ∧
      goodCheck pts l1 l2 l3 l4 = true ∧
      corners l1 l2 l3 l4 = some its ∧ r = polygon_area its := by
  unfold tryEdge at h
  rcases Option.bind_eq_some.mp h with ⟨L, hc, h'⟩
  obtain ⟨l1, l2, l3, l4⟩ := L
  by_cases hg : goodCheck pts l1 l2 l3 l4 = true
  · rw [if_pos hg] at h'
    rcases Option.map_eq_some'.mp h' with ⟨its, hk, hr⟩
    exact ⟨l1, l2, l3, l4, its, hc, hg, hk, hr.symm⟩
  · rw [if_neg hg] at h'
    exact absurd h' (by simp)

theorem goodCheck_covered {pts : List pt} {l1 l2 l3 l4 : line}
    (h : goodCheck pts l1 l2 l3 l4 = true) :
    ∀ p ∈ pts, rabs (eval l1 p.1 - p.2) < eps ∨ rabs (eval l2 p.1 - p.2) < eps ∨
      rabs (eval l3 p.1 - p.2) < eps ∨ rabs (eval l4 p.1 - p.2) < eps := by
  intro p hp
  unfold goodCheck at h
  have := List.all_eq_true.mp h p hp
  simpa [onLine, Bool.or_eq_true, decide_eq_true_eq, or_assoc] using this

theorem tryEdge_eq_none_of_uncovered {pts : List pt} {a b p : pt}
    {l1 l2 l3 l4 : line}
    (hc : candLines pts a b = some (l1, l2, l3, l4)) (hp : p ∈ pts)
    (h1 : ¬ rabs (eval l1 p.1 - p.2) < eps) (h2 : ¬ rabs (eval l2 p.1 - p.2) < eps)
    (h3 : ¬ rabs (eval l3 p.1 - p.2) < eps) (h4 : ¬ rabs (eval l4 p.1 - p.2) < eps) :
    tryEdge pts a b = none := by
  have hg : goodCheck pts l1 l2 l3 l4 = false := by
    unfold goodCheck
    rw [List.all_eq_false]
    refine ⟨p, hp, ?_⟩
    simp [onLine, Bool.or_eq_true, decide_eq_true_eq, h1, h2, h3, h4]
  unfold tryEdge
  rw [hc, Option.some_bind]
  simp only [hg, Bool.false_eq_true, if_false]

theorem corners_of_candLines {pts : List pt} {a b : pt} {l1 l2 l3 l4 : line}
    (hc : candLines pts a b = some (l1, l2, l3, l4)) :
    ∃ its, corners l1 l2 l3 l4 = some its := by
  rcases candLines_eq_some hc with ⟨l1', m2, xs, hml, hm2, _, hL⟩
  obtain ⟨he1, he2, he3, he4⟩ : l1 = l1' ∧
      l2 = make_line (xs.foldl qmin big, eval l1' (xs.foldl qmin big)) m2 ∧
      l3 = make_line (xs.foldl qmax (-big), eval l1' (xs.foldl qmax (-big))) m2 ∧
      l4 = (l1'.1, ((pts.map fun p => (make_line p l1'.1).2).foldl qmax (-big))) := by
    have h1 := congrArg (fun q => q.1) hL
    have h2 := congrArg (fun q => q.2.1) hL
    have h3 := congrArg (fun q => q.2.2.1) hL
    have h4 := congrArg (fun q => q.2.2.2) hL
    exact ⟨h1, h2, h3, h4⟩
  rcases slope_m2_eq_some hm2 with ⟨hne, hperp⟩
  have hs1 : l1.1 = l1'.1 := by rw [he1]
  have hs2 : l2.1 = m2 := by rw [he2]; rfl
  have hs3 : l3.1 = m2 := by rw [he3]; rfl
  have hs4 : l4.1 = l1'.1 := by rw [he4]
  have hp13 : l1.1 * l3.1 = -1 := by rw [hs1, hs3]; exact hperp
  have hp34 : l3.1 * l4.1 = -1 := by rw [hs3, hs4]; linarith [hperp]
  have hp42 : l4.1 * l2.1 = -1 := by rw [hs4, hs2]; exact hperp
  have hp21 : l2.1 * l1.1 = -1 := by rw [hs2, hs1]; linarith [hperp]
  rcases intersect_isSome_of_perp hp13 with ⟨p0, h0⟩
  rcases intersect_isSome_of_perp hp34 with ⟨p1, h1⟩
  rcases intersect_isSome_of_perp hp42 with ⟨p2, h2⟩
  rcases intersect_isSome_of_perp hp21 with ⟨p3, h3⟩
  refine ⟨[p0, p1, p2, p3], ?_⟩
  unfold corners
  rw [h0, h1, h2, h3]

/-! ## Reflection and fallback lemmas (C5, C8, C10 infrastructure) -/

theorem neg_neg_pts (pts : List pt) : neg_pts (neg_pts pts) = pts := by
  unfold neg_pts
  rw [List.map_map]
  simp [Function.comp_def]

theorem map_fst_neg_pts (pts : List pt) :
    (neg_pts pts).map Prod.fst = (pts.map Prod.fst).map fun y => -y := by
  unfold neg_pts
  rw [List.map_map, List.map_map]
  rfl

theorem map_snd_neg_pts (pts : List pt) :
    (neg_pts pts).map Prod.snd = (pts.map Prod.snd).map fun y => -y := by
  unfold neg_pts
  rw [List.map_map, List.map_map]
  rfl

theorem bboxArea_neg (pts : List pt) : bboxArea (neg_pts pts) = bboxArea pts := by
  unfold bboxArea
  rw [map_fst_neg_pts, map_snd_neg_pts]
  rw [foldl_qmin_map_neg, foldl_qmax_map_neg, foldl_qmin_map_neg, foldl_qmax_map_neg]
  rw [neg_neg]
  ring

theorem solve_fallback (pts : List pt) (h1 : runPass pts = none)
    (h2 : runPass (neg_pts pts) = none) : solve pts = bboxArea pts := by
  unfold solve
  rw [h1, h2]
  simp [neg_neg_pts]

theorem neg_pts_eq_map_rot180 (pts : List pt) : neg_pts pts = pts.map rot180 := by
  unfold neg_pts rot180 rotBy
  have : (fun p : pt => (-p.1, -p.2)) = fun p : pt => ((-1) * p.1 - 0 * p.2, 0 * p.1 + (-1) * p.2) := by
    funext p
    apply Prod.ext <;> simp
  rw [this]

/-! ## The claims -/

/-- **C2.** For every input point set, the sequence returned by `lower_hull`
has only strictly convex consecutive turns: whenever three points occur
consecutively in the output, the cross product of the two edges they span is
strictly positive (so in particular no three consecutive output points are
collinear — the `<= 0` pop condition uses strict inequality for keeping, so
exactly-collinear points are excluded). -/
theorem C2_hull_strict_turns (locs : List pt) : StrictTurns (lower_hull locs) := by
  unfold lower_hull
  split
  · exact strictTurns_short (by omega)
  · exact strictTurns_of_revTurns (hullFold_revTurns _ [] trivial)

/-- **C1.** For every candidate hull edge: (1) the candidate `{l1, l2, l3, l4}`
is accepted only if every input point lies within tolerance `eps` of at least
one of the four lines; (2) if some point fails all four lines the candidate
is rejected (`tryEdge` yields `none`, so the loop moves on to the next hull
edge); (3) hull edges are tried in hull order and the first verified
candidate stops the search: if all earlier edges were rejected and this
edge's verification succeeds, `runPass` returns this candidate's area. -/
theorem C1_candidate_verification (pts : List pt) (a b : pt) :
    (∀ r, tryEdge pts a b = some r →
      ∃ l1 l2 l3 l4, candLines pts a b = some (l1, l2, l3, l4) ∧
        ∀ p ∈ pts, rabs (eval l1 p.1 - p.2) < eps ∨ rabs (eval l2 p.1 - p.2) < eps ∨
          rabs (eval l3 p.1 - p.2) < eps ∨ rabs (eval l4 p.1 - p.2) < eps) ∧
    (∀ l1 l2 l3 l4 (p : pt), candLines pts a b = some (l1, l2, l3, l4) → p ∈ pts →
      ¬ rabs (eval l1 p.1 - p.2) < eps → ¬ rabs (eval l2 p.1 - p.2) < eps →
      ¬ rabs (eval l3 p.1 - p.2) < eps → ¬ rabs (eval l4 p.1 - p.2) < eps →
      tryEdge pts a b = none) ∧
    (∀ (pre post : List (pt × pt)) l1 l2 l3 l4,
      adjPairs (lower_hull pts) = pre ++ (a, b) :: post →
      (∀ e ∈ pre, tryEdge pts e.1 e.2 = none) →
      candLines pts a b = some (l1, l2, l3, l4) →
      goodCheck pts l1 l2 l3 l4 = true →
      ∃ its, corners l1 l2 l3 l4 = some its ∧ runPass pts = some (polygon_area its)) := by
  refine ⟨?_, ?_, ?_⟩
  · intro r h
    rcases tryEdge_eq_some h with ⟨l1, l2, l3, l4, its, hc, hg, _, _⟩
    exact ⟨l1, l2, l3, l4, hc, goodCheck_covered hg⟩
  · intro l1 l2 l3 l4 p hc hp h1 h2 h3 h4
    exact tryEdge_eq_none_of_uncovered hc hp h1 h2 h3 h4
  · intro pre post l1 l2 l3 l4 hsplit hpre hc hg
    rcases corners_of_candLines hc with ⟨its, hk⟩
    refine ⟨its, hk, ?_⟩
    have hacc : tryEdge pts a b = some (polygon_area its) := by
      unfold tryEdge
      rw [hc, Option.some_bind, if_pos hg, hk]
      rfl
    unfold runPass
    rw [hsplit]
    exact findSome?_first pre (a, b) post _ _ hpre hacc

/-- Witness for C1 at the tilted-rectangle sample `ex1`: the first hull edge
verifies and the pass returns its area 2. -/
theorem C1_candidate_verification_witness : runPass ex1 = some 2 := by
  obtain ⟨its, hk, hr⟩ := (C1_candidate_verification ex1 (-1, 1) (0, 0)).2.2
    [] [((0, 0), (1, 1))] (-1, 0) (1, 2) (1, 0) (-1, 2)
    (by with_unfolding_all rfl) (by simp)
    (by with_unfolding_all rfl) (by with_unfolding_all rfl)
  have hits : its = [(0, 0), (1, 1), (0, 2), (-1, 1)] := by
    have h2 : (some its : Option (List pt)) = some [(0, 0), (1, 1), (0, 2), (-1, 1)] := by
      rw [← hk]; with_unfolding_all rfl
    exact Option.some.inj h2
  rw [hr, hits]
  with_unfolding_all rfl

/-- **C4.** `polygon_area` is the shoelace value — the absolute value of the
sum over consecutive vertices (cyclically) of `x_i*y_{i+1} - y_i*x_{i+1}`,
halved — and is non-negative on every vertex list; and on acceptance the
reported area is exactly `polygon_area` of the four pairwise intersections of
adjacent sides taken in the consistent cyclic order `l1, l3, l4, l2`. -/
theorem C4_corners_shoelace :
    (∀ locs, polygon_area locs = rabs (specShoelace locs) / 2) ∧
    (∀ locs, 0 ≤ polygon_area locs) ∧
    (∀ (pts : List pt) (a b : pt) (r : ℚ), tryEdge pts a b = some r →
      ∃ l1 l2 l3 l4 its, candLines pts a b = some (l1, l2, l3, l4) ∧
        corners l1 l2 l3 l4 = some its ∧ r = polygon_area its) := by
  refine ⟨polygon_area_eq_specShoelace, polygon_area_nonneg, ?_⟩
  intro pts a b r h
  rcases tryEdge_eq_some h with ⟨l1, l2, l3, l4, its, hc, _, hk, hr⟩
  exact ⟨l1, l2, l3, l4, its, hc, hk, hr⟩

/-- Witness for C4 at `ex1`: the accepted area 2 is the shoelace area of the
four corner intersections. -/
theorem C4_corners_shoelace_witness :
    ∃ l1 l2 l3 l4 its, candLines ex1 (-1, 1) (0, 0) = some (l1, l2, l3, l4) ∧
      corners l1 l2 l3 l4 = some its ∧ (2 : ℚ) = polygon_area its :=
  C4_corners_shoelace.2.2 ex1 (-1, 1) (0, 0) 2 (by with_unfolding_all rfl)

/-- **C5.** The in-place reflection negates both coordinates, which is
exactly rotation by 180°; if the first pass accepts no candidate, `solve`
continues with the same pass run on the rotated point set (falling back to
the bounding box of the original points when that also fails); and negating
every vertex leaves `polygon_area` unchanged, so point negation does not
change the recovered rectangle area. -/
theorem C5_reflect_second_pass :
    (∀ pts : List pt, neg_pts pts = pts.map rot180) ∧
    (∀ pts : List pt, runPass pts = none →
      solve pts = (runPass (pts.map rot180)).getD (bboxArea pts)) ∧
    (∀ locs : List pt, polygon_area (neg_pts locs) = polygon_area locs) := by
  refine ⟨neg_pts_eq_map_rot180, ?_, polygon_area_neg⟩
  intro pts h
  rw [← neg_pts_eq_map_rot180]
  cases h2 : runPass (neg_pts pts) with
  | some r => simp [solve, h, h2]
  | none => simp [solve, h, h2, neg_neg_pts]

/-- Witness for C5 at the axis-aligned sample: its first pass fails, so
`solve` equals the second pass on the rotated points with bounding-box
fallback. -/
theorem C5_reflect_second_pass_witness :
    solve axEx = (runPass (axEx.map rot180)).getD (bboxArea axEx) :=
  C5_reflect_second_pass.2.1 axEx (by with_unfolding_all rfl)

/-- **C6.** A candidate edge that is horizontal or vertical makes the
slope–intercept arithmetic undefined (the NaN of the source, modelled as
`none`), and such a candidate is never accepted; for the axis-aligned
rectangle sample both hull passes reject every candidate and the answer is
produced by the axis-aligned fallback, so the emitted area is an actual
rational (12), never an undefined value. -/
theorem C6_nan_rejected :
    (∀ (pts : List pt) (a b : pt), a.1 = b.1 ∨ a.2 = b.2 → tryEdge pts a b = none) ∧
    (runPass axEx = none ∧ runPass (neg_pts axEx) = none ∧
      solve axEx = bboxArea axEx ∧ bboxArea axEx = 12) := by
  constructor
  · intro pts a b h
    have hcand : candLines pts a b = none := by
      by_cases hv : b.1 - a.1 = 0
      · have hml : make_line2 a b = none := by
          unfold make_line2 qdiv
          rw [if_pos hv]
          rfl
        unfold candLines
        rw [hml, Option.none_bind]
      · have hh : b.2 - a.2 = 0 := by
          rcases h with h | h
          · exact absurd (by linarith : b.1 - a.1 = 0) hv
          · linarith
        have hml : make_line2 a b = some (make_line a 0) := by
          unfold make_line2 qdiv
          rw [if_neg hv, hh, zero_div, Option.map_some']
        have hm2 : slope_m2 (make_line a 0) = none := by
          unfold slope_m2 make_line qdiv
          simp
        unfold candLines
        rw [hml, Option.some_bind, hm2, Option.none_bind]
    unfold tryEdge
    rw [hcand, Option.none_bind]
  · exact ⟨by with_unfolding_all rfl, by with_unfolding_all rfl,
      by with_unfolding_all rfl, by with_unfolding_all rfl⟩

/-- Witness for C6: the horizontal hull edge `((0,0), (4,0))` of the
axis-aligned sample is rejected. -/
theorem C6_nan_rejected_witness : tryEdge axEx (0, 0) (4, 0) = none :=
  C6_nan_rejected.1 axEx (0, 0) (4, 0) (Or.inr rfl)

set_option maxRecDepth 8000 in
/-- **C7 counterexample.** The fallback's running extrema are seeded with the
sentinels `±1e9`, so for a point set lying beyond the sentinel (a single
point at `(2e9, 2e9)`) the reported value `1e18` is not the bounding-box
area `(max_x - min_x) * (max_y - min_y) = 0` of the input points. -/
theorem C7_fallback_counterexample :
    bboxArea [((2000000000 : ℚ), 2000000000)] = 1000000000000000000 ∧
    ((2000000000 : ℚ) - 2000000000) * ((2000000000 : ℚ) - 2000000000) = 0 ∧
    (1000000000000000000 : ℚ) ≠ 0 :=
  ⟨by with_unfolding_all rfl, by norm_num, by norm_num⟩

/-- **C7 (amended).** Provided the true coordinate extrema do not pass the
`±1e9` sentinels seeding the running folds (`min ≤ 1e9` and `max ≥ -1e9` in
each coordinate), the axis-aligned fallback reports exactly
`(max_x - min_x) * (max_y - min_y)` over the input points; and on the
axis-aligned rectangle sample `solve` reports the true area 12. -/
theorem C7_fallback_amended :
    (∀ (pts : List pt) (mx Mx my My : ℚ),
      mx ∈ pts.map Prod.fst → (∀ y ∈ pts.map Prod.fst, mx ≤ y) → mx ≤ big →
      Mx ∈ pts.map Prod.fst → (∀ y ∈ pts.map Prod.fst, y ≤ Mx) → -big ≤ Mx →
      my ∈ pts.map Prod.snd → (∀ y ∈ pts.map Prod.snd, my ≤ y) → my ≤ big →
      My ∈ pts.map Prod.snd → (∀ y ∈ pts.map Prod.snd, y ≤ My) → -big ≤ My →
      bboxArea pts = (Mx - mx) * (My - my)) ∧
    solve axEx = 12 := by
  constructor
  · intro pts mx Mx my My h1 h2 h3 h4 h5 h6 h7 h8 h9 h10 h11 h12
    unfold bboxArea
    rw [foldl_qmin_eq _ _ _ h1 h2 h3, foldl_qmax_eq _ _ _ h4 h5 h6,
        foldl_qmin_eq _ _ _ h7 h8 h9, foldl_qmax_eq _ _ _ h10 h11 h12]
    ring
  · with_unfolding_all rfl

/-- Witness for C7 on the axis-aligned sample: the fallback area equals
`(4 - 0) * (3 - 0)`. -/
theorem C7_fallback_witness : bboxArea axEx = ((4 : ℚ) - 0) * ((3 : ℚ) - 0) :=
  C7_fallback_amended.1 axEx 0 4 0 3
    (of_decide_eq_true (by with_unfolding_all rfl))
    (of_decide_eq_true (by with_unfolding_all rfl))
    (of_decide_eq_true (by with_unfolding_all rfl))
    (of_decide_eq_true (by with_unfolding_all rfl))
    (of_decide_eq_true (by with_unfolding_all rfl))
    (of_decide_eq_true (by with_unfolding_all rfl))
    (of_decide_eq_true (by with_unfolding_all rfl))
    (of_decide_eq_true (by with_unfolding_all rfl))
    (of_decide_eq_true (by with_unfolding_all rfl))
    (of_decide_eq_true (by with_unfolding_all rfl))
    (of_decide_eq_true (by with_unfolding_all rfl))
    (of_decide_eq_true (by with_unfolding_all rfl))

/-- **C8 counterexample.** On the axis-aligned sample both hull passes accept
no candidate, yet the program does not surface any failure or diagnostic: it
silently emits the fallback bounding-box value 12. -/
theorem C8_silent_fallback_counterexample :
    runPass axEx = none ∧ runPass (neg_pts axEx) = none ∧ solve axEx = 12 :=
  of_decide_eq_true (by with_unfolding_all rfl)

/-- **C8 (amended).** When both the first hull pass and the reflected second
pass accept no candidate, the program falls through to the axis-aligned
bounding-box fallback and emits its area — an ordinary numeric value, with
no explicit failure signal. -/
theorem C8_silent_fallback_amended (pts : List pt) (h1 : runPass pts = none)
    (h2 : runPass (neg_pts pts) = none) : solve pts = bboxArea pts :=
  solve_fallback pts h1 h2

/-- Witness for C8 at the axis-aligned sample. -/
theorem C8_silent_fallback_witness : solve axEx = bboxArea axEx :=
  C8_silent_fallback_amended axEx (by with_unfolding_all rfl)
    (by with_unfolding_all rfl)

set_option maxRecDepth 8000 in
/-- **C9 counterexample.** The verification tolerance is the fixed constant
`eps = 1e-7`, not a value relative to coordinate magnitude: the tilted
rectangle `ex9` (area 2, one sample `1e-8` off a side) is accepted, but the
same input scaled by `1e6` (`ex9big`) is rejected by both passes — its
perturbation is now `1e-2 > eps` — and falls through to the bounding box,
reporting `4e12` instead of the scaled area `2 * 1e12`.  A tolerance chosen
relative to coordinate magnitude would commute with scaling. -/
theorem C9_eps_counterexample :
    solve ex9 = 2 ∧ solve ex9big = 4000000000000 ∧
    solve ex9big ≠ 1000000000000 * solve ex9 := by
  have h1 : solve ex9 = 2 := by with_unfolding_all rfl
  have h2 : solve ex9big = 4000000000000 := by with_unfolding_all rfl
  refine ⟨h1, h2, ?_⟩
  rw [h1, h2]
  norm_num

/-- **C9 (amended).** The tolerance used by the point-on-line verification is
the fixed absolute constant `1e-7`, independent of the input's coordinate
scale; consequently the recovered value is not scale-invariant (`ex9`
recovers 2, its `1e6`-scaled copy recovers `4e12`, not `2e12`). -/
theorem C9_eps_amended :
    eps = 1 / 10000000 ∧ solve ex9 = 2 ∧ solve ex9big = 4000000000000 :=
  ⟨rfl, by with_unfolding_all rfl, by with_unfolding_all rfl⟩

/-- **C10.** Negating both coordinates is an involution, so when control
reaches the fallback (both passes having failed) the twice-reflected stored
points equal the original input and the bounding box is computed over the
original points; moreover a single reflection already leaves the quantity
`(max_y - min_y) * (max_x - min_x)` unchanged (the `±1e9` fold seeds swap
roles under negation). -/
theorem C10_double_reflection :
    (∀ pts : List pt, neg_pts (neg_pts pts) = pts) ∧
    (∀ pts : List pt, bboxArea (neg_pts pts) = bboxArea pts) ∧
    (∀ pts : List pt, runPass pts = none → runPass (neg_pts pts) = none →
      solve pts = bboxArea pts) :=
  ⟨neg_neg_pts, bboxArea_neg, solve_fallback⟩

/-- Witness for C10 at the axis-aligned sample (both passes fail there). -/
theorem C10_double_reflection_witness :
    neg_pts (neg_pts axEx) = axEx ∧ solve axEx = bboxArea axEx :=
  ⟨C10_double_reflection.1 axEx,
   C10_double_reflection.2.2 axEx (by with_unfolding_all rfl)
     (by with_unfolding_all rfl)⟩

set_option maxRecDepth 8000 in
/-- **C3 counterexample.** The running extrema of the side construction are
seeded with the sentinels `±1e9`, so they are not always the extrema over
the input points: for the hull edge of `ex3` (both projection abscissae
exceed `1e9`) the code's `l2 = (-1, 0)` passes through the sentinel point,
not through the input point of minimum projection — the spec's line would be
`make_line (2e9, 0) (-1) = (-1, 2e9)`; likewise the code's `l4`-intercept is
the sentinel `-1e9` although every slope-`m1` intercept is `-2e9`. -/
theorem C3_side_construction_counterexample :
    lower_hull ex3 = [(2000000000, 0), (2000000001, 1)] ∧
    candLines ex3 (2000000000, 0) (2000000001, 1)
      = some ((1, -2000000000), (-1, 0), (-1, 2000000002), (1, -1000000000)) ∧
    proj_x (1, -2000000000) (-1) (2000000000, 0) = some 2000000000 ∧
    proj_x (1, -2000000000) (-1) (2000000001, 1) = some 2000000001 ∧
    make_line (2000000000, 0) (-1) = (-1, 2000000000) ∧
    ((-1, 0) : line) ≠ ((-1, 2000000000) : line) ∧
    (ex3.map fun p => (make_line p 1).2) = [-2000000000, -2000000000] ∧
    ((-1000000000 : ℚ)) ≠ -2000000000 := by
  refine ⟨by with_unfolding_all rfl, by with_unfolding_all rfl,
    by with_unfolding_all rfl, by with_unfolding_all rfl,
    by with_unfolding_all rfl, ?_, by with_unfolding_all rfl, by norm_num⟩
  intro h
  have h2 : (0 : ℚ) = 2000000000 := congrArg (fun q : line => q.2) h
  norm_num at h2

/-- **C3 (amended).** For a candidate edge, `l1` is the line through the two
hull points and the perpendicular slope `m2` satisfies `m1 * m2 = -1`;
provided the extreme projection abscissae do not pass the `±1e9` sentinels
seeding the running extrema, `l2` (resp. `l3`) equals the line with slope
`m2` through the input point of minimum (resp. maximum) projection abscissa;
and provided the maximum slope-`m1` intercept is at least `-1e9`, `l4` is
the line with slope `m1` whose intercept is that maximum. -/
theorem C3_side_construction_amended (pts : List pt) (a b : pt)
    (l1 l2 l3 l4 : line) (hc : candLines pts a b = some (l1, l2, l3, l4)) :
    make_line2 a b = some l1 ∧
    (∀ m2, slope_m2 l1 = some m2 →
      l1.1 * m2 = -1 ∧
      ∀ xs, projXs l1 m2 pts = some xs →
        ((∀ (p : pt) (xp : ℚ), p ∈ pts → proj_x l1 m2 p = some xp →
            (∀ y ∈ xs, xp ≤ y) → xp ≤ big → l2 = make_line p m2) ∧
         (∀ (p : pt) (xp : ℚ), p ∈ pts → proj_x l1 m2 p = some xp →
            (∀ y ∈ xs, y ≤ xp) → -big ≤ xp → l3 = make_line p m2))) ∧
    (l4.1 = l1.1 ∧
     ∀ B, B ∈ (pts.map fun p => (make_line p l1.1).2) →
       (∀ y ∈ (pts.map fun p => (make_line p l1.1).2), y ≤ B) → -big ≤ B →
       l4.2 = B) := by
  rcases candLines_eq_some hc with ⟨l1', m2', xs', hml, hm2', hxs', hL⟩
  have he1 : l1 = l1' := congrArg (fun q => q.1) hL
  have he2 : l2 = make_line (xs'.foldl qmin big, eval l1' (xs'.foldl qmin big)) m2' :=
    congrArg (fun q => q.2.1) hL
  have he3 : l3 = make_line (xs'.foldl qmax (-big), eval l1' (xs'.foldl qmax (-big))) m2' :=
    congrArg (fun q => q.2.2.1) hL
  have he4 : l4 = (l1'.1, ((pts.map fun p => (make_line p l1'.1).2).foldl qmax (-big))) :=
    congrArg (fun q => q.2.2.2) hL
  subst he1
  refine ⟨hml, ?_, ?_⟩
  · intro m2 hm2
    have hm2eq : m2 = m2' := by
      rw [hm2'] at hm2
      exact (Option.some.inj hm2).symm
    subst hm2eq
    refine ⟨(slope_m2_eq_some hm2).2, ?_⟩
    intro xs hxs
    have hxseq : xs = xs' := by
      rw [hxs'] at hxs
      exact (Option.some.inj hxs).symm
    subst hxseq
    constructor
    · intro p xp hp hproj hmin hbig
      have hmem : xp ∈ xs := projXs_mem hxs' hp hproj
      have hfold : xs.foldl qmin big = xp := foldl_qmin_eq xs big xp hmem hmin hbig
      rw [he2, hfold]
      have hon : eval (make_line p m2) xp = eval l1 xp := proj_on_perp hproj
      exact make_line_of_on hon
    · intro p xp hp hproj hmax hbig
      have hmem : xp ∈ xs := projXs_mem hxs' hp hproj
      have hfold : xs.foldl qmax (-big) = xp := foldl_qmax_eq xs (-big) xp hmem hmax hbig
      rw [he3, hfold]
      have hon : eval (make_line p m2) xp = eval l1 xp := proj_on_perp hproj
      exact make_line_of_on hon
  · constructor
    · rw [he4]
    · intro B hB hle hbig
      rw [he4]
      exact foldl_qmax_eq _ _ _ hB hle hbig

/-- Witness for C3 at `ex1`: for the first hull edge, `l2 = (1, 2)` is the
slope-`m2 = 1` line through the minimum-projection input point `(-1, 1)`. -/
theorem C3_side_construction_witness :
    candLines ex1 (-1, 1) (0, 0) = some ((-1, 0), (1, 2), (1, 0), (-1, 2)) ∧
    ((1, 2) : line) = make_line ((-1 : ℚ), 1) 1 := by
  have hc : candLines ex1 (-1, 1) (0, 0) = some ((-1, 0), (1, 2), (1, 0), (-1, 2)) := by
    with_unfolding_all rfl
  have h := (C3_side_construction_amended ex1 (-1, 1) (0, 0) _ _ _ _ hc).2.1 1
    (by with_unfolding_all rfl)
  have h2 := (h.2 [-1, 0, -1, 0] (by with_unfolding_all rfl)).1 (-1, 1) (-1)
    (of_decide_eq_true (by with_unfolding_all rfl))
    (by with_unfolding_all rfl)
    (of_decide_eq_true (by with_unfolding_all rfl))
    (of_decide_eq_true (by with_unfolding_all rfl))
  exact ⟨hc, h2⟩
